import Mathlib

/-!
Verification of the metadata-normalization pipeline of
`video-metadata-extractor.py`.

The Python script is shallowly embedded: Python strings are `String`,
Python `None`-able values are `Option`, Python float arithmetic
(`num / denom`, `round(x, k)`, `f-string .3f` formatting) is modelled by
exact rational arithmetic with ties-to-even rounding, and Python
exceptions escaping a function are modelled with `Except`.  Only the
ASCII fragment of Python text handling is modelled (`str.upper`,
`str.lower`, `int()` digits); every string the script manipulates is
ASCII.
-/

/-! ## Python primitive helpers -/

/-- Decimal digit test, as used by the grammar of Python `int()`. -/
def isPyDigit (c : Char) : Bool := '0' ≤ c && c ≤ '9'

/-- ASCII whitespace stripped by Python `int()` around the digits. -/
def isPySpace (c : Char) : Bool :=
  c = ' ' || c = '\t' || c = '\n' || c = '\r' || c = '\x0b' || c = '\x0c'

/-- Character of a single decimal digit (arguments are below 10). -/
def digitChar : ℕ → Char
  | 0 => '0'
  | 1 => '1'
  | 2 => '2'
  | 3 => '3'
  | 4 => '4'
  | 5 => '5'
  | 6 => '6'
  | 7 => '7'
  | 8 => '8'
  | _ => '9'

/-- Decimal digits of a natural number, most significant first; the first
argument is recursion fuel (any fuel above the number is enough). -/
def natCharsAux : ℕ → ℕ → List Char
  | 0, _ => []
  | f + 1, n => if n < 10 then [digitChar n] else natCharsAux f (n / 10) ++ [digitChar (n % 10)]

/-- Decimal rendering of a natural number as Python `str` produces it. -/
def natChars (n : ℕ) : List Char := natCharsAux (n + 1) n

/-- Decimal rendering of an integer as Python `str` produces it. -/
def intChars (i : ℤ) : List Char :=
  if i < 0 then '-' :: natChars i.natAbs else natChars i.natAbs

/-- Decimal rendering of an integer, packaged as a string. -/
def intToStr (i : ℤ) : String := String.mk (intChars i)

/-- Numeric value of a digit string, Python underscore separators removed. -/
def digitsValN (l : List Char) : ℕ :=
  (l.filter fun c => !(c == '_')).foldl (fun a c => a * 10 + (c.toNat - 48)) 0

/-- State machine for the digit part of Python `int()`: digits with single
underscores strictly between digits.  The Boolean state records whether the
previous character was a digit (so an underscore or the end is legal). -/
def pyDigitsGo : Bool → List Char → Bool
  | prev, [] => prev
  | prev, c :: t =>
    if isPyDigit c then pyDigitsGo true t
    else if c = '_' then prev && pyDigitsGo false t
    else false

/-- Acceptance test for the digit part of a Python integer literal. -/
def pyDigitsOk (l : List Char) : Bool := pyDigitsGo false l

/-- Strip ASCII whitespace from both ends, as Python `int()` does. -/
def pyStrip (l : List Char) : List Char :=
  ((l.dropWhile isPySpace).reverse.dropWhile isPySpace).reverse

/-- Python `int(s)` on a character list: optional whitespace, optional
sign, then a digit group; `none` models the `ValueError` raise. -/
def pyIntOfChars (l0 : List Char) : Option ℤ :=
  match pyStrip l0 with
  | [] => none
  | c :: rest =>
    if c = '+' then (if pyDigitsOk rest then some ((digitsValN rest : ℕ) : ℤ) else none)
    else if c = '-' then (if pyDigitsOk rest then some (-((digitsValN rest : ℕ) : ℤ)) else none)
    else if pyDigitsOk (c :: rest) then some ((digitsValN (c :: rest) : ℕ) : ℤ) else none

/-- Worker for Python `str.split(sep)`, accumulating the current field
in reverse. -/
def pySplitGo (sep : Char) : List Char → List Char → List (List Char)
  | acc, [] => [acc.reverse]
  | acc, c :: t => if c = sep then acc.reverse :: pySplitGo sep [] t else pySplitGo sep (c :: acc) t

/-- Python `str.split(sep)` for a one-character separator. -/
def pySplit (sep : Char) (l : List Char) : List (List Char) := pySplitGo sep [] l

/-- Contiguous-sublist test on character lists (Python `needle in hay`). -/
def listSub (needle : List Char) : List Char → Bool
  | [] => needle.isEmpty
  | c :: t => needle.isPrefixOf (c :: t) || listSub needle t

/-- Python substring containment `needle in hay`. -/
def strContains (hay needle : String) : Bool := listSub needle.toList hay.toList

/-- ASCII lower-casing of one character (Python `str.lower` on the ASCII
strings the script handles). -/
def charLower (c : Char) : Char :=
  if 'A' ≤ c && c ≤ 'Z' then Char.ofNat (c.toNat + 32) else c

/-- ASCII upper-casing of one character (Python `str.upper`). -/
def charUpper (c : Char) : Char :=
  if 'a' ≤ c && c ≤ 'z' then Char.ofNat (c.toNat - 32) else c

/-- Python `s.lower()` on ASCII strings. -/
def strLower (s : String) : String := String.mk (s.toList.map charLower)

/-- Python `s.upper()` on ASCII strings. -/
def strUpper (s : String) : String := String.mk (s.toList.map charUpper)

/-- Python `s.endswith(suf)`. -/
def strEndsWith (s suf : String) : Bool := List.isSuffixOf suf.toList s.toList

/-- Python `s.startswith(pre)`. -/
def strStartsWith (s pre : String) : Bool := List.isPrefixOf pre.toList s.toList

/-- Python `sep.join(xs)`. -/
def strJoin (sep : String) (xs : List String) : String :=
  match xs with
  | [] => ("" : String)
  | x :: t => t.foldl (fun acc y => acc ++ sep ++ y) x

/-- Python truthiness of an optional string: `None` and the empty string
are falsy. -/
def pyTruthy (o : Option String) : Bool :=
  match o with
  | none => false
  | some s => !(s == "")

/-- Round a rational to the nearest integer with ties to even, the rule
Python `round` and `%.3f` formatting apply to the exact value.  This is
the specification-level version; the script's computations go through
`roundHalfEvenFrac`, its kernel-computable integer counterpart. -/
def roundHalfEven (q : ℚ) : ℤ :=
  if q - ⌊q⌋ < 1 / 2 then ⌊q⌋
  else if 1 / 2 < q - ⌊q⌋ then ⌊q⌋ + 1
  else if ⌊q⌋ % 2 = 0 then ⌊q⌋ else ⌊q⌋ + 1

/-- Integer computation of `roundHalfEven (a / b)` for a positive
denominator `b` (Lean integer `/` and `%` are Euclidean here, so `a / b`
is the floor). -/
def roundHalfEvenFrac (a : ℤ) (b : ℕ) : ℤ :=
  let f := a / (b : ℤ)
  let r := a % (b : ℤ)
  if 2 * r < (b : ℤ) then f
  else if (b : ℤ) < 2 * r then f + 1
  else if f % 2 = 0 then f else f + 1

/-- Python `round(q, k)`: round to `k` decimal places, ties to even. -/
def pyRound (k : ℕ) (q : ℚ) : ℚ := (roundHalfEven (q * 10 ^ k) : ℚ) / 10 ^ k

/-- Python fixed formatting `f"{q:.3f}"` on the exact rational value:
specification-level version. -/
def formatFixed3 (q : ℚ) : String :=
  let sgn := if q < 0 then ("-" : String) else ("" : String)
  let n := (roundHalfEven (|q| * 1000)).toNat
  let fs := Nat.repr (n % 1000)
  sgn ++ Nat.repr (n / 1000) ++ ("." : String) ++ String.mk (List.replicate (3 - fs.length) '0') ++ fs

/-- Integer computation of `formatFixed3 (a / b)` for `b ≠ 0`; this is
what the embedded script evaluates. -/
def formatFixedFrac (a b : ℤ) : String :=
  let a2 := if b < 0 then -a else a
  let sgn := if a2 < 0 then ("-" : String) else ("" : String)
  let n := (roundHalfEvenFrac (|a2| * 1000) b.natAbs).toNat
  let fs := Nat.repr (n % 1000)
  sgn ++ Nat.repr (n / 1000) ++ ("." : String) ++ String.mk (List.replicate (3 - fs.length) '0') ++ fs

example : pyIntOfChars (String.toList (" 24000")) = some 24000 := by decide
example : pyIntOfChars (String.toList ("-1_0")) = some (-10) := by decide
example : pyIntOfChars (String.toList ("N/A")) = none := by decide
example : pyIntOfChars (String.toList ("1_")) = none := by decide
example : pySplit '/' (String.toList ("24000/1001")) =
    [String.toList ("24000"), String.toList ("1001")] := by decide
example : formatFixedFrac 24000 1001 = "23.976" := by decide
example : formatFixedFrac 30 1 = "30.000" := by decide
example : formatFixedFrac 24 (-2) = "-12.000" := by decide

/-! ## The script's functions and data model -/

/-- Dispatch on the shape of `rate.split(sep)` mapped through `int`:
exactly two integer parts with nonzero denominator produce the formatted
frame rate, anything else is the caught-exception path (`None`). -/
def framerateOfParts (parts : List (Option ℤ)) : Option String :=
  match parts with
  | [some num, some den] =>
    if den = 0 then none else some (formatFixedFrac num den ++ (" fps" : String))
  | _ => none

/-- Embeds `parse_framerate` (source lines 45-51).  A `none` argument
models a missing `r_frame_rate` field: Python then calls `.split` on
`None`, raising, and the bare `except` returns `None`.  Float division
`num / denom` and `f"{...:.3f}"` are modelled exactly on the rational
value via `formatFixedFrac`. -/
def parse_framerate (rate : Option String) : Option String :=
  match rate with
  | none => none
  | some r => framerateOfParts ((pySplit '/' r.toList).map pyIntOfChars)

/-- Keyword list of `detect_hdr` (source line 56). -/
def hdr_keywords : List String := ["bt2020", "smpte2084", "arib-std-b67"]

/-- Embeds `detect_hdr` (source lines 54-62): `if color or transfer`
guards two case-insensitive keyword scans (`word in (x or '').lower()`). -/
def detect_hdr (color transfer : Option String) : String :=
  if pyTruthy color || pyTruthy transfer then
    if hdr_keywords.any (fun w => strContains (strLower (color.getD (""))) w) then ("HDR" : String)
    else if hdr_keywords.any (fun w => strContains (strLower (transfer.getD (""))) w) then ("HDR" : String)
    else ("SDR" : String)
  else ("SDR" : String)

/-- Embeds `size_in_gb` (source lines 40-42) as a function of the byte
count delivered by `os.path.getsize`: `round(bytes / 1024 ** 3, 3)`,
with the float arithmetic modelled on the exact rational value. -/
def size_in_gb (byteCount : ℕ) : ℚ := pyRound 3 ((byteCount : ℚ) / 1024 ^ 3)

/-- The `tags` object of a probed stream (`tags.language`). -/
structure Tags where
  language : Option String
deriving DecidableEq

/-- One entry of the `streams` sequence of a ProbeResult; every field the
script reads is optional, as `stream.get` never raises. -/
structure ProbeStream where
  index : Option ℤ
  codec_name : Option String
  codec_type : Option String
  profile : Option String
  width : Option ℤ
  height : Option ℤ
  r_frame_rate : Option String
  color_space : Option String
  color_transfer : Option String
  tags : Option Tags
deriving DecidableEq

/-- The `format` object of a ProbeResult; ffprobe delivers these fields
as strings when present. -/
structure Format where
  format_name : Option String
  bit_rate : Option String
  duration : Option String
deriving DecidableEq

/-- A parsed ProbeResult (`meta`).  A failed or falsy probe (`None`, or
an empty object) is represented as `none` at the use sites. -/
structure Meta where
  format : Option Format
  streams : Option (List ProbeStream)
deriving DecidableEq

/-- The empty dict default of `meta.get('format', {})`. -/
def emptyFormat : Format := ⟨none, none, none⟩

/-- A spreadsheet cell value: Python `None`, a string, or a number. -/
inductive Cell where
  | null : Cell
  | str : String → Cell
  | num : ℚ → Cell
deriving DecidableEq

/-- One data row of the report (source lines 112-123), field for field. -/
structure Row where
  path : String
  size_gb : ℚ
  resolution : Option String
  audio_tracks : Option String
  video_codec : Option String
  profile : Option String
  bitrate : Cell
  container : Option String
  frame_rate : Option String
  hdr_status : String
deriving DecidableEq

/-- The per-file loop variables initialised at source lines 84-90. -/
structure RowAcc where
  res : Option String
  vid_codec : Option String
  profile : Option String
  framerate : Option String
  hdr : String
  audio_tracks : List String
deriving DecidableEq

/-- Defaults of source lines 84-90. -/
def initAcc : RowAcc := ⟨none, none, none, none, ("SDR" : String), []⟩

/-- Test of `stream.get('codec_type') == 'video'`. -/
def isVideoStream (st : ProbeStream) : Bool := st.codec_type = some ("video")

/-- Test of `stream.get('codec_type') == 'audio'`. -/
def isAudioStream (st : ProbeStream) : Bool := st.codec_type = some ("audio")

/-- Python `f"{x}"` of an optional integer (`None` renders as `"None"`). -/
def pyShowOptInt (o : Option ℤ) : String :=
  match o with
  | none => ("None" : String)
  | some n => intToStr n

/-- Python `f"{x}"` of an optional string. -/
def pyShowOptStr (o : Option String) : String :=
  match o with
  | none => ("None" : String)
  | some s => s

/-- Audio-track descriptor of source lines 106-109:
`f"Track {track_num}/{codec}/{lang}"`, where
`lang = stream.get('tags', {}).get('language', 'Unknown').upper()`. -/
def audioDescriptor (st : ProbeStream) : String :=
  ("Track " : String) ++ pyShowOptInt st.index ++ ("/" : String) ++ pyShowOptStr st.codec_name
    ++ ("/" : String) ++ strUpper ((st.tags.getD ⟨none⟩).language.getD ("Unknown"))

/-- One iteration of the `for stream in meta.get('streams', [])` loop
(source lines 98-109).  Note that a video stream overwrites the video
fields unconditionally: the loop has no `break`. -/
def processStream (acc : RowAcc) (st : ProbeStream) : RowAcc :=
  if isVideoStream st then
    ⟨some (pyShowOptInt st.width ++ ("x" : String) ++ pyShowOptInt st.height),
     st.codec_name, st.profile, parse_framerate st.r_frame_rate,
     detect_hdr st.color_space st.color_transfer, acc.audio_tracks⟩
  else if isAudioStream st then
    ⟨acc.res, acc.vid_codec, acc.profile, acc.framerate, acc.hdr,
     acc.audio_tracks ++ [audioDescriptor st]⟩
  else acc

/-- The whole stream loop, starting from the line 84-90 defaults. -/
def normalizeStreams (l : List ProbeStream) : RowAcc := l.foldl processStream initAcc

/-- The audio column: `'; '.join(audio_tracks) if audio_tracks else None`
(source line 116). -/
def audioCol (tracks : List String) : Option String :=
  if tracks = [] then none else some (strJoin ("; ") tracks)

/-- Exceptions the row-building code can raise. -/
inductive PyError where
  | valueError : PyError
  | nameError : PyError
deriving DecidableEq

/-- Bitrate handling of source lines 94-96: `bitrate = fmt.get('bit_rate')`
then `if bitrate: bitrate = round(int(bitrate) / 1000, 2)`.  An absent
field stays `None`, a present falsy (empty) string is kept verbatim, and
a present non-integer string makes `int` raise `ValueError`. -/
def bitrateCell (br : Option String) : Except PyError Cell :=
  match br with
  | none => Except.ok Cell.null
  | some s =>
    if s = "" then Except.ok (Cell.str s)
    else
      match pyIntOfChars s.toList with
      | some v => Except.ok (Cell.num (pyRound 2 ((v : ℚ) / 1000)))
      | none => Except.error PyError.valueError

/-- One iteration of the per-file loop body (source lines 80-123).
`fmt0` is the value of the loop variable `fmt` left over from earlier
iterations: the source assigns `fmt` only under `if meta:`, yet reads it
at line 120 for every row, so with `meta` falsy the row either reuses the
previous file's format dict or raises `NameError` when no file has set it
yet. -/
def makeRow (fmt0 : Option Format) (file : String) (sizeBytes : ℕ) (meta : Option Meta) :
    Except PyError (Row × Option Format) :=
  match meta with
  | some m =>
    let f := m.format.getD emptyFormat
    match bitrateCell f.bit_rate with
    | Except.error e => Except.error e
    | Except.ok bc =>
      let acc := normalizeStreams (m.streams.getD [])
      Except.ok (⟨file, size_in_gb sizeBytes, acc.res, audioCol acc.audio_tracks,
        acc.vid_codec, acc.profile, bc, f.format_name, acc.framerate, acc.hdr⟩, some f)
  | none =>
    match fmt0 with
    | none => Except.error PyError.nameError
    | some f =>
      Except.ok (⟨file, size_in_gb sizeBytes, none, none, none, none, Cell.null,
        f.format_name, none, ("SDR" : String)⟩, some f)

/-- The file loop of `create_report`, threading the stale `fmt` binding;
each list entry is a file path, its byte size, and its probe result. -/
def processFiles : Option Format → List (String × ℕ × Option Meta) → Except PyError (List Row)
  | _, [] => Except.ok []
  | fmt0, (file, sz, meta) :: rest =>
    match makeRow fmt0 file sz meta with
    | Except.error e => Except.error e
    | Except.ok (row, fmt1) =>
      match processFiles fmt1 rest with
      | Except.error e => Except.error e
      | Except.ok rows => Except.ok (row :: rows)

/-- Rows produced by a whole `create_report` run: `fmt` starts unbound. -/
def create_report_rows (files : List (String × ℕ × Option Meta)) : Except PyError (List Row) :=
  processFiles none files

/-- POSIX `os.path.join` for the two-argument call at source line 127. -/
def os_path_join (a b : String) : String :=
  if strStartsWith b ("/") then b
  else if a = "" || strEndsWith a ("/") then a ++ b
  else a ++ ("/" : String) ++ b

/-- Output-path fixup of source lines 126-127: any path not ending in
`.xlsx` gets `video_metadata.xlsx` joined onto it. -/
def resolve_output_path (p : String) : String :=
  if strEndsWith p (".xlsx") then p else os_path_join p ("video_metadata.xlsx")

/-- Outcome of the `__main__` block: either a printed guidance message
with no processing, or a `create_report(dirs, output_path)` run. -/
inductive MainResult where
  | message : String → MainResult
  | run : List String → String → MainResult
deriving DecidableEq

/-- Embeds the `__main__` dispatch (source lines 148-153); `not dirs` is
emptiness of the list and `not output_path` emptiness of the string. -/
def main_dispatch (dirs : List String) (output_path : String) : MainResult :=
  if dirs = [] then
    MainResult.message ("Please add your video directory paths to the dirs list in the script.")
  else if output_path = "" then
    MainResult.message ("Please specify the output path for the Excel report in the output_path variable.")
  else MainResult.run dirs output_path

/-- The last stream of a list satisfying `isVideoStream`, computed head
first; equals `(l.filter isVideoStream).getLast?`. -/
def lastVideo : List ProbeStream → Option ProbeStream
  | [] => none
  | st :: t =>
    match lastVideo t with
    | some v => some v
    | none => if isVideoStream st then some st else none

/-- Specification-side predicate: the optional string case-insensitively
contains one of the HDR keywords (the keywords are lower case, so
containment is checked against the lowercased input). -/
def hasHdrKeyword (o : Option String) : Prop :=
  ∃ w ∈ hdr_keywords, strContains (strLower (o.getD (""))) w = true

example : detect_hdr (some ("bt2020nc")) none = "HDR" := by decide
example : detect_hdr none (some ("smpte2084")) = "HDR" := by decide
example : detect_hdr none none = "SDR" := by decide
example : parse_framerate (some ("24000/1001")) = some ("23.976 fps") := by decide
example : parse_framerate (some ("24/0")) = none := by decide
example : parse_framerate (some ("1/2/3")) = none := by decide
example : parse_framerate none = none := by decide
example : resolve_output_path ("/out/dir") = "/out/dir/video_metadata.xlsx" := by decide

/-! ## Helper lemmas -/

/-- The two HDR branch results are the only outputs of `detect_hdr`. -/
lemma detect_hdr_cases (c t : Option String) :
    detect_hdr c t = "HDR" ∨ detect_hdr c t = "SDR" := by
  unfold detect_hdr
  split_ifs <;> simp

/-- Bridge between the Boolean keyword scan of `detect_hdr` and the
specification predicate `hasHdrKeyword`. -/
lemma any_keyword_iff (o : Option String) :
    (hdr_keywords.any fun w => strContains (strLower (o.getD (""))) w) = true ↔
      hasHdrKeyword o := by
  rw [List.any_eq_true]
  rfl

/-- A falsy optional string is `None` or empty. -/
lemma pyTruthy_false {o : Option String} (h : pyTruthy o = false) :
    o = none ∨ o = some ("") := by
  cases o with
  | none => exact Or.inl rfl
  | some s =>
    right
    unfold pyTruthy at h
    simp only [Bool.not_eq_false', beq_iff_eq] at h
    rw [h]

/-- Falsy inputs contain no keyword. -/
lemma no_keyword_of_falsy {o : Option String} (h : o = none ∨ o = some ("")) :
    ¬ hasHdrKeyword o := by
  rintro ⟨w, hw, hcon⟩
  simp only [hdr_keywords, List.mem_cons, List.mem_singleton, List.not_mem_nil, or_false] at hw
  rcases h with rfl | rfl <;> rcases hw with rfl | rfl | rfl <;> exact absurd hcon (by decide)

/-! ## Claim C4 -/

/-- C4: `detect_hdr` returns `"HDR"` iff at least one of the two inputs,
case-insensitively, contains one of the substrings `bt2020`, `smpte2084`,
`arib-std-b67`; in every other case, including both inputs null or empty,
it returns `"SDR"`. -/
theorem detect_hdr_spec (c t : Option String) :
    (detect_hdr c t = "HDR" ↔ hasHdrKeyword c ∨ hasHdrKeyword t) ∧
    (¬(hasHdrKeyword c ∨ hasHdrKeyword t) → detect_hdr c t = "SDR") := by
  by_cases hg : (pyTruthy c || pyTruthy t) = true
  · unfold detect_hdr
    rw [if_pos hg]
    by_cases h1 : (hdr_keywords.any fun w => strContains (strLower (c.getD (""))) w) = true
    · rw [if_pos h1]
      have hk : hasHdrKeyword c ∨ hasHdrKeyword t := Or.inl ((any_keyword_iff c).mp h1)
      exact ⟨⟨fun _ => hk, fun _ => rfl⟩, fun hn => absurd hk hn⟩
    · rw [if_neg h1]
      by_cases h2 : (hdr_keywords.any fun w => strContains (strLower (t.getD (""))) w) = true
      · rw [if_pos h2]
        have hk : hasHdrKeyword c ∨ hasHdrKeyword t := Or.inr ((any_keyword_iff t).mp h2)
        exact ⟨⟨fun _ => hk, fun _ => rfl⟩, fun hn => absurd hk hn⟩
      · rw [if_neg h2]
        refine ⟨⟨fun habs => absurd habs (by decide), ?_⟩, fun _ => rfl⟩
        rintro (hk | hk)
        · exact absurd ((any_keyword_iff c).mpr hk) h1
        · exact absurd ((any_keyword_iff t).mpr hk) h2
  · unfold detect_hdr
    rw [if_neg hg]
    rw [Bool.or_eq_true, not_or, Bool.not_eq_true, Bool.not_eq_true] at hg
    have hkc := no_keyword_of_falsy (pyTruthy_false hg.1)
    have hkt := no_keyword_of_falsy (pyTruthy_false hg.2)
    refine ⟨⟨fun habs => absurd habs (by decide), ?_⟩, fun _ => rfl⟩
    rintro (hk | hk)
    · exact absurd hk hkc
    · exact absurd hk hkt

/-- C4 witness: a keyword-bearing color space is classified HDR, two null
inputs are classified SDR, through `detect_hdr_spec`. -/
theorem detect_hdr_spec_witness :
    detect_hdr (some ("bt2020nc")) none = "HDR" ∧ detect_hdr none none = "SDR" := by
  constructor
  · exact (detect_hdr_spec (some ("bt2020nc")) none).1.mpr
      (Or.inl ⟨("bt2020"), by decide, by decide⟩)
  · exact (detect_hdr_spec none none).2 (by
      rintro (hk | hk) <;>
        exact absurd hk (no_keyword_of_falsy (Or.inl rfl)))

/-! ## Claim C8 -/

/-- C8 counterexample: `/videos/report.csv` is a file path (it does not
end in `.xlsx`), yet the document is not persisted to that path itself:
the default filename is joined onto it. -/
theorem resolve_output_path_refuted :
    resolve_output_path ("/videos/report.csv") = "/videos/report.csv/video_metadata.xlsx" ∧
    resolve_output_path ("/videos/report.csv") ≠ "/videos/report.csv" := by decide

/-- C8 (amended): the choice is a filename-suffix heuristic, not a
directory check: a configured path ending in `.xlsx` is used as the
document path itself, any other path gets `video_metadata.xlsx` joined
inside it. -/
theorem resolve_output_path_suffix_rule (p : String) :
    (strEndsWith p (".xlsx") = true → resolve_output_path p = p) ∧
    (strEndsWith p (".xlsx") = false → resolve_output_path p = os_path_join p ("video_metadata.xlsx")) := by
  constructor <;> intro h <;> simp [resolve_output_path, h]

/-- C8 witness: both branches of `resolve_output_path_suffix_rule` at
concrete paths. -/
theorem resolve_output_path_suffix_rule_witness :
    resolve_output_path ("/tmp/report.xlsx") = "/tmp/report.xlsx" ∧
    resolve_output_path ("/tmp/outdir") = os_path_join ("/tmp/outdir") ("video_metadata.xlsx") :=
  ⟨(resolve_output_path_suffix_rule ("/tmp/report.xlsx")).1 (by decide),
   (resolve_output_path_suffix_rule ("/tmp/outdir")).2 (by decide)⟩

/-! ## Claim C9 -/

/-- C9: with no scan directories or no output path configured, the main
block prints a guidance message and never reaches `create_report`. -/
theorem main_dispatch_misconfig (dirs : List String) (output_path : String)
    (h : dirs = [] ∨ output_path = "") :
    (∃ s, main_dispatch dirs output_path = MainResult.message s) ∧
    ∀ ds o, main_dispatch dirs output_path ≠ MainResult.run ds o := by
  have hmsg : ∃ s, main_dispatch dirs output_path = MainResult.message s := by
    rcases h with h | h
    · subst h
      exact ⟨_, rfl⟩
    · subst h
      by_cases hd : dirs = []
      · subst hd
        exact ⟨_, rfl⟩
      · refine ⟨("Please specify the output path for the Excel report in the output_path variable."), ?_⟩
        simp [main_dispatch, hd]
  refine ⟨hmsg, ?_⟩
  rcases hmsg with ⟨s, hs⟩
  intro ds o hrun
  rw [hs] at hrun
  exact MainResult.noConfusion hrun

/-- C9 witness: empty directory list, through `main_dispatch_misconfig`. -/
theorem main_dispatch_misconfig_witness :
    (∃ s, main_dispatch [] ("/out.xlsx") = MainResult.message s) ∧
    ∀ ds o, main_dispatch [] ("/out.xlsx") ≠ MainResult.run ds o :=
  main_dispatch_misconfig [] ("/out.xlsx") (Or.inl rfl)

/-! ## Claim C2 -/

/-- C2: the claim is right and the code is wrong.  The source assigns
`fmt` only under `if meta:` (line 93) yet reads `fmt.get('format_name')`
for every row (line 120).  With the probe failing on the very first file
the row construction raises `NameError`; after a successful file, a
failing file's container column carries the previous file's
`format_name` instead of null. -/
theorem null_probe_fmt_bug :
    create_report_rows [(("b.mkv"), 0, none)] = Except.error PyError.nameError ∧
    (create_report_rows
        [(("a.mkv"), 0, some ⟨some ⟨some ("matroska"), none, none⟩, some []⟩),
         (("b.mkv"), 0, none)]).map (fun rows => rows.map (fun r => r.container)) =
      Except.ok [some ("matroska"), some ("matroska")] := by
  constructor
  · rfl
  · rfl

/-! ## Claim C3 -/

/-- Every accumulator reachable by the stream loop keeps `hdr` in
`{HDR, SDR}`. -/
lemma foldl_hdr_cases (l : List ProbeStream) :
    ∀ acc : RowAcc, acc.hdr = "HDR" ∨ acc.hdr = "SDR" →
      (List.foldl processStream acc l).hdr = "HDR" ∨
      (List.foldl processStream acc l).hdr = "SDR" := by
  induction l with
  | nil => exact fun acc h => h
  | cons st t ih =>
    intro acc h
    refine ih (processStream acc st) ?_
    unfold processStream
    split_ifs
    · exact detect_hdr_cases st.color_space st.color_transfer
    · exact h
    · exact h

/-- C3 counterexample: a ProbeResult whose `format.bit_rate` is the
non-numeric string `N/A` makes `int(bitrate)` raise `ValueError`, so
normalization does raise. -/
theorem bitrate_nonnumeric_raises :
    makeRow none ("f.mkv") 0 (some ⟨some ⟨none, some ("N/A"), none⟩, some []⟩) =
      Except.error PyError.valueError := by rfl

/-- C3 (amended): for every present ProbeResult whose `format.bit_rate`,
when present and non-empty, parses as a Python integer, normalization
never raises; missing fields degrade to null in their output columns and
`hdr_status` always has a definite value (`HDR` or `SDR`). -/
theorem normalizer_total (fmt0 : Option Format) (file : String) (sz : ℕ) (m : Meta)
    (hbr : ∀ s, (m.format.getD emptyFormat).bit_rate = some s → s ≠ "" →
      (pyIntOfChars s.toList).isSome = true) :
    ∃ row f, makeRow fmt0 file sz (some m) = Except.ok (row, some f) ∧
      (row.hdr_status = "HDR" ∨ row.hdr_status = "SDR") ∧
      (m.streams.getD [] = [] →
        row.resolution = none ∧ row.video_codec = none ∧ row.profile = none ∧
        row.frame_rate = none ∧ row.audio_tracks = none) ∧
      ((m.format.getD emptyFormat).bit_rate = none → row.bitrate = Cell.null) ∧
      ((m.format.getD emptyFormat).format_name = none → row.container = none) := by
  obtain ⟨bc, hbc, hbnull⟩ : ∃ bc, bitrateCell (m.format.getD emptyFormat).bit_rate = Except.ok bc ∧
      ((m.format.getD emptyFormat).bit_rate = none → bc = Cell.null) := by
    rcases hfb : (m.format.getD emptyFormat).bit_rate with _ | s
    · exact ⟨Cell.null, rfl, fun _ => rfl⟩
    · by_cases hs : s = ""
      · subst hs
        exact ⟨Cell.str (""), rfl, fun h => Option.noConfusion h⟩
      · have hsome := hbr s hfb hs
        rcases hp : pyIntOfChars s.toList with _ | v
        · rw [hp] at hsome
          exact absurd hsome (by simp)
        · refine ⟨Cell.num (pyRound 2 ((v : ℚ) / 1000)), ?_, fun h => Option.noConfusion h⟩
          simp only [bitrateCell]
          rw [if_neg hs, hp]
  refine ⟨⟨file, size_in_gb sz, (normalizeStreams (m.streams.getD [])).res,
      audioCol (normalizeStreams (m.streams.getD [])).audio_tracks,
      (normalizeStreams (m.streams.getD [])).vid_codec,
      (normalizeStreams (m.streams.getD [])).profile, bc,
      (m.format.getD emptyFormat).format_name,
      (normalizeStreams (m.streams.getD [])).framerate,
      (normalizeStreams (m.streams.getD [])).hdr⟩,
    m.format.getD emptyFormat, ?_, ?_, ?_, ?_, ?_⟩
  · simp only [makeRow, hbc]
  · exact foldl_hdr_cases (m.streams.getD []) initAcc (Or.inr rfl)
  · intro hempty
    rw [hempty]
    exact ⟨rfl, rfl, rfl, rfl, rfl⟩
  · exact hbnull
  · intro hfn
    exact hfn

/-- C3 witness: a numeric bit rate and empty stream list go through
`normalizer_total` without an exception. -/
theorem normalizer_total_witness :
    ∃ row f, makeRow none ("f.mkv") 0
        (some ⟨some ⟨some ("matroska"), some ("5000000"), none⟩, some []⟩) =
      Except.ok (row, some f) ∧
      (row.hdr_status = "HDR" ∨ row.hdr_status = "SDR") ∧
      (([] : List ProbeStream) = [] →
        row.resolution = none ∧ row.video_codec = none ∧ row.profile = none ∧
        row.frame_rate = none ∧ row.audio_tracks = none) ∧
      ((some ("5000000") : Option String) = none → row.bitrate = Cell.null) ∧
      ((some ("matroska") : Option String) = none → row.container = none) := by
  exact normalizer_total none ("f.mkv") 0
    ⟨some ⟨some ("matroska"), some ("5000000"), none⟩, some []⟩
    (by
      intro s hs hne
      have hs2 : s = ("5000000") := by
        have := hs.symm
        simpa using this
      subst hs2
      decide)

/-! ## Stream-loop characterization -/

/-- The video-derived components of an accumulator, bundled. -/
def videoFields (acc : RowAcc) :
    Option String × Option String × Option String × Option String × String :=
  (acc.res, acc.vid_codec, acc.profile, acc.framerate, acc.hdr)

/-- The values the loop body assigns from a video stream. -/
def fieldsOfVideo (st : ProbeStream) :
    Option String × Option String × Option String × Option String × String :=
  (some (pyShowOptInt st.width ++ ("x" : String) ++ pyShowOptInt st.height),
   st.codec_name, st.profile, parse_framerate st.r_frame_rate,
   detect_hdr st.color_space st.color_transfer)

/-- A stream cannot be both video and audio. -/
lemma not_audio_of_video {st : ProbeStream} (h : isVideoStream st = true) :
    isAudioStream st = false := by
  unfold isVideoStream at h
  unfold isAudioStream
  simp only [decide_eq_true_eq] at h
  simp [h]

/-- The video fields after the loop come from the last video stream, or
stay at their incoming values when there is none. -/
lemma foldl_video_fields (l : List ProbeStream) :
    ∀ acc : RowAcc, videoFields (List.foldl processStream acc l) =
      match lastVideo l with
      | none => videoFields acc
      | some st => fieldsOfVideo st := by
  induction l with
  | nil => intro acc; rfl
  | cons st t ih =>
    intro acc
    rw [List.foldl_cons, ih (processStream acc st)]
    have hcons : lastVideo (st :: t) =
        match lastVideo t with
        | some v => some v
        | none => if isVideoStream st then some st else none := rfl
    rw [hcons]
    cases hlv : lastVideo t with
    | some v => rfl
    | none =>
      by_cases hv : isVideoStream st = true
      · rw [if_pos hv]
        show videoFields (processStream acc st) = fieldsOfVideo st
        unfold processStream
        rw [if_pos hv]
        rfl
      · rw [if_neg hv]
        show videoFields (processStream acc st) = videoFields acc
        unfold processStream
        rw [if_neg hv]
        by_cases ha : isAudioStream st = true
        · rw [if_pos ha]
          rfl
        · rw [if_neg ha]

/-- The last element of a cons, written through the tail. -/
lemma getLast?_cons_eq {α : Type} (a : α) (l : List α) :
    (a :: l).getLast? =
      match l.getLast? with
      | some v => some v
      | none => some a := by
  cases l with
  | nil => rfl
  | cons x xs =>
    rw [List.getLast?_cons_cons]
    obtain ⟨v, hv⟩ := Option.isSome_iff_exists.mp
      (List.getLast?_isSome.mpr (by simp : (x :: xs : List α) ≠ []))
    rw [hv]

/-- `lastVideo` is the last element of the video-stream filter. -/
lemma lastVideo_eq_getLast (l : List ProbeStream) :
    lastVideo l = (l.filter isVideoStream).getLast? := by
  induction l with
  | nil => rfl
  | cons st t ih =>
    have hcons : lastVideo (st :: t) =
        match lastVideo t with
        | some v => some v
        | none => if isVideoStream st then some st else none := rfl
    rw [hcons, ih, List.filter_cons]
    by_cases hv : isVideoStream st = true
    · rw [if_pos hv, if_pos hv, getLast?_cons_eq]
      cases (t.filter isVideoStream).getLast? with
      | some v => rfl
      | none => rfl
    · rw [if_neg hv, if_neg hv]
      cases (t.filter isVideoStream).getLast? with
      | some v => rfl
      | none => rfl

/-- The audio track list after the loop appends one descriptor per audio
stream, in order. -/
lemma foldl_audio_tracks (l : List ProbeStream) :
    ∀ acc : RowAcc, (List.foldl processStream acc l).audio_tracks =
      acc.audio_tracks ++ (l.filter isAudioStream).map audioDescriptor := by
  induction l with
  | nil => intro acc; simp
  | cons st t ih =>
    intro acc
    rw [List.foldl_cons, ih (processStream acc st), List.filter_cons]
    by_cases hv : isVideoStream st
    · rw [if_neg (by rw [not_audio_of_video hv]; exact Bool.false_ne_true)]
      unfold processStream
      rw [if_pos hv]
    · by_cases ha : isAudioStream st = true
      · rw [if_pos ha]
        unfold processStream
        rw [if_neg hv, if_pos ha]
        simp
      · rw [if_neg ha]
        unfold processStream
        rw [if_neg hv, if_neg ha]

/-- Field-level reading of a successful `makeRow` on a present
ProbeResult. -/
lemma makeRow_fields {fmt0 : Option Format} {file : String} {sz : ℕ} {m : Meta}
    {row : Row} {f : Option Format}
    (h : makeRow fmt0 file sz (some m) = Except.ok (row, f)) :
    row.resolution = (normalizeStreams (m.streams.getD [])).res ∧
    row.video_codec = (normalizeStreams (m.streams.getD [])).vid_codec ∧
    row.profile = (normalizeStreams (m.streams.getD [])).profile ∧
    row.frame_rate = (normalizeStreams (m.streams.getD [])).framerate ∧
    row.hdr_status = (normalizeStreams (m.streams.getD [])).hdr ∧
    row.audio_tracks = audioCol (normalizeStreams (m.streams.getD [])).audio_tracks ∧
    row.container = (m.format.getD emptyFormat).format_name := by
  cases hbc : bitrateCell (m.format.getD emptyFormat).bit_rate with
  | error e =>
    simp only [makeRow] at h
    rw [hbc] at h
    exact absurd h (by simp)
  | ok bc =>
    simp only [makeRow] at h
    rw [hbc] at h
    simp only [Except.ok.injEq, Prod.mk.injEq] at h
    rw [← h.1]
    exact ⟨rfl, rfl, rfl, rfl, rfl, rfl, rfl⟩

/-! ## Claim C1 -/

/-- A first video stream of a two-video-stream file. -/
def vStreamA : ProbeStream :=
  ⟨some 0, some ("h264"), some ("video"), some ("High"), some 1920, some 1080,
   some ("24/1"), none, none, none⟩

/-- A second video stream with different properties. -/
def vStreamB : ProbeStream :=
  ⟨some 1, some ("hevc"), some ("video"), some ("Main"), some 3840, some 2160,
   some ("30/1"), none, none, none⟩

/-- C1 counterexample: with two video streams the report row's codec and
resolution come from the second (last) video stream `vStreamB`, not from
the first video stream `vStreamA` as the claim states. -/
theorem first_video_stream_refuted :
    isVideoStream vStreamA = true ∧ vStreamA.codec_name = some ("h264") ∧
    (makeRow none ("f.mkv") 0 (some ⟨none, some [vStreamA, vStreamB]⟩)).map
        (fun rf => (rf.1.video_codec, rf.1.resolution)) =
      Except.ok (some ("hevc"), some ("3840x2160")) ∧
    (some ("hevc") : Option String) ≠ some ("h264") ∧
    (some ("3840x2160") : Option String) ≠ some ("1920x1080") := by
  refine ⟨by decide, by decide, by rfl, by decide, by decide⟩

/-- C1 (amended): the report row's resolution, video codec, profile,
frame rate and HDR status are determined by the LAST stream with
`codec_type == "video"`; earlier video streams are overwritten. -/
theorem last_video_stream_determines (fmt0 : Option Format) (file : String) (sz : ℕ)
    (m : Meta) (row : Row) (f : Option Format)
    (h : makeRow fmt0 file sz (some m) = Except.ok (row, f)) :
    row.resolution = (((m.streams.getD []).filter isVideoStream).getLast?).map
        (fun st => pyShowOptInt st.width ++ ("x" : String) ++ pyShowOptInt st.height) ∧
    row.video_codec = (((m.streams.getD []).filter isVideoStream).getLast?).bind
        (fun st => st.codec_name) ∧
    row.profile = (((m.streams.getD []).filter isVideoStream).getLast?).bind
        (fun st => st.profile) ∧
    row.frame_rate = (((m.streams.getD []).filter isVideoStream).getLast?).bind
        (fun st => parse_framerate st.r_frame_rate) ∧
    row.hdr_status =
      (match ((m.streams.getD []).filter isVideoStream).getLast? with
       | none => ("SDR" : String)
       | some st => detect_hdr st.color_space st.color_transfer) := by
  obtain ⟨h1, h2, h3, h4, h5, _, _⟩ := makeRow_fields h
  have hvf := foldl_video_fields (m.streams.getD []) initAcc
  rw [← lastVideo_eq_getLast]
  cases hlv : lastVideo (m.streams.getD []) with
  | none =>
    rw [hlv] at hvf
    exact ⟨by rw [h1]; exact congrArg (fun p => p.1) hvf,
      by rw [h2]; exact congrArg (fun p => p.2.1) hvf,
      by rw [h3]; exact congrArg (fun p => p.2.2.1) hvf,
      by rw [h4]; exact congrArg (fun p => p.2.2.2.1) hvf,
      by rw [h5]; exact congrArg (fun p => p.2.2.2.2) hvf⟩
  | some st =>
    rw [hlv] at hvf
    exact ⟨by rw [h1]; exact congrArg (fun p => p.1) hvf,
      by rw [h2]; exact congrArg (fun p => p.2.1) hvf,
      by rw [h3]; exact congrArg (fun p => p.2.2.1) hvf,
      by rw [h4]; exact congrArg (fun p => p.2.2.2.1) hvf,
      by rw [h5]; exact congrArg (fun p => p.2.2.2.2) hvf⟩

/-- C1 witness: applying `last_video_stream_determines` to the concrete
two-video-stream file yields the second stream's codec. -/
theorem last_video_stream_determines_witness :
    ∃ row f, makeRow none ("w1.mkv") 0 (some ⟨none, some [vStreamA, vStreamB]⟩) =
      Except.ok (row, f) ∧ row.video_codec = some ("hevc") := by
  obtain ⟨v, hv⟩ : ∃ v, makeRow none ("w1.mkv") 0 (some ⟨none, some [vStreamA, vStreamB]⟩) =
      Except.ok v := ⟨_, rfl⟩
  refine ⟨v.1, v.2, by rw [hv], ?_⟩
  have hc := (last_video_stream_determines none ("w1.mkv") 0
    ⟨none, some [vStreamA, vStreamB]⟩ v.1 v.2 (by rw [hv])).2.1
  rw [hc]
  rfl

/-! ## Claim C10 -/

/-- A video stream with absent width and height. -/
def vStreamNoDims : ProbeStream :=
  ⟨some 0, some ("h264"), some ("video"), none, none, none, none, none, none, none⟩

/-- C10 counterexample: this ProbeResult contains a video stream whose
width and height are absent, yet the resolution column is neither null
nor a rendering of the missing values: a later video stream overwrote
it. -/
theorem missing_dims_rendering_refuted :
    vStreamNoDims.width = none ∧ vStreamNoDims.height = none ∧
    isVideoStream vStreamNoDims = true ∧
    (makeRow none ("f.mkv") 0 (some ⟨none, some [vStreamNoDims, vStreamB]⟩)).map
        (fun rf => rf.1.resolution) = Except.ok (some ("3840x2160")) ∧
    (some ("3840x2160") : Option String) ≠ some ("NonexNone") ∧
    (some ("3840x2160") : Option String) ≠ none := by
  refine ⟨rfl, rfl, by decide, by rfl, by decide, by decide⟩

/-- C10 (amended): the resolution column is null exactly when no video
stream is present; when the determining (last) video stream has absent
width or height the column holds the literal Python rendering of those
values (`None`), joined by `x`. -/
theorem resolution_null_iff_no_video (fmt0 : Option Format) (file : String) (sz : ℕ)
    (m : Meta) (row : Row) (f : Option Format)
    (h : makeRow fmt0 file sz (some m) = Except.ok (row, f)) :
    (row.resolution = none ↔ (m.streams.getD []).filter isVideoStream = []) ∧
    (∀ st, ((m.streams.getD []).filter isVideoStream).getLast? = some st →
      row.resolution = some (pyShowOptInt st.width ++ ("x" : String) ++ pyShowOptInt st.height)) ∧
    pyShowOptInt none = ("None" : String) := by
  have hres := (last_video_stream_determines fmt0 file sz m row f h).1
  refine ⟨?_, ?_, rfl⟩
  · rw [hres]
    constructor
    · intro hn
      cases hl : (m.streams.getD []).filter isVideoStream with
      | nil => rfl
      | cons x xs =>
        rw [hl] at hn
        obtain ⟨w, hw⟩ := Option.isSome_iff_exists.mp
          (List.getLast?_isSome.mpr (by simp : (x :: xs : List ProbeStream) ≠ []))
        rw [hw] at hn
        exact Option.noConfusion hn
    · intro hl
      rw [hl]
      rfl
  · intro st hst
    rw [hres, hst]
    rfl

/-- C10 witness: a single video stream with both dimensions absent makes
the resolution column the literal string `NonexNone`, through
`resolution_null_iff_no_video`. -/
theorem resolution_null_iff_no_video_witness :
    ∃ row f, makeRow none ("w2.mkv") 0 (some ⟨none, some [vStreamNoDims]⟩) =
      Except.ok (row, f) ∧ row.resolution = some ("NonexNone") := by
  obtain ⟨v, hv⟩ : ∃ v, makeRow none ("w2.mkv") 0 (some ⟨none, some [vStreamNoDims]⟩) =
      Except.ok v := ⟨_, rfl⟩
  refine ⟨v.1, v.2, by rw [hv], ?_⟩
  have hr := (resolution_null_iff_no_video none ("w2.mkv") 0
    ⟨none, some [vStreamNoDims]⟩ v.1 v.2 (by rw [hv])).2.1 vStreamNoDims (by rfl)
  rw [hr]
  rfl

/-! ## Claim C6 -/

/-- C6: every audio stream contributes exactly one descriptor
`Track {index}/{codec_name}/{LANGUAGE}` (language tag uppercased,
`UNKNOWN` when absent), and the audio column joins them with `; ` in
stream order, or is null when there is no audio stream. -/
theorem audio_tracks_column (fmt0 : Option Format) (file : String) (sz : ℕ)
    (m : Meta) (row : Row) (f : Option Format)
    (h : makeRow fmt0 file sz (some m) = Except.ok (row, f)) :
    (row.audio_tracks =
      if ((m.streams.getD []).filter isAudioStream).map audioDescriptor = [] then none
      else some (strJoin ("; ")
        (((m.streams.getD []).filter isAudioStream).map audioDescriptor))) ∧
    ∀ st : ProbeStream, audioDescriptor st =
      ("Track " : String) ++ pyShowOptInt st.index ++ ("/" : String) ++
        pyShowOptStr st.codec_name ++ ("/" : String) ++
        (match (st.tags.getD ⟨none⟩).language with
         | some lang => strUpper lang
         | none => ("UNKNOWN" : String)) := by
  constructor
  · have ha := (makeRow_fields h).2.2.2.2.2.1
    rw [ha]
    unfold normalizeStreams
    rw [foldl_audio_tracks (m.streams.getD []) initAcc]
    rfl
  · intro st
    unfold audioDescriptor
    cases hlang : (st.tags.getD ⟨none⟩).language with
    | none => rfl
    | some lang => rfl

/-- An audio stream matching the specification's worked example. -/
def aStreamEng : ProbeStream :=
  ⟨some 2, some ("aac"), some ("audio"), none, none, none, none, none, none,
   some ⟨some ("eng")⟩⟩

/-- C6 witness: a single English AAC track renders as `Track 2/aac/ENG`,
through `audio_tracks_column`. -/
theorem audio_tracks_column_witness :
    ∃ row f, makeRow none ("w3.mkv") 0 (some ⟨none, some [aStreamEng]⟩) =
      Except.ok (row, f) ∧ row.audio_tracks = some ("Track 2/aac/ENG") := by
  obtain ⟨v, hv⟩ : ∃ v, makeRow none ("w3.mkv") 0 (some ⟨none, some [aStreamEng]⟩) =
      Except.ok v := ⟨_, rfl⟩
  refine ⟨v.1, v.2, by rw [hv], ?_⟩
  have ha := (audio_tracks_column none ("w3.mkv") 0
    ⟨none, some [aStreamEng]⟩ v.1 v.2 (by rw [hv])).1
  rw [ha]
  rfl

/-! ## Claim C7 -/

/-- The rounding never goes below the floor. -/
lemma floor_le_roundHalfEven (q : ℚ) : ⌊q⌋ ≤ roundHalfEven q := by
  unfold roundHalfEven
  split_ifs <;> omega

/-- The rounding never exceeds the floor plus one. -/
lemma roundHalfEven_le (q : ℚ) : roundHalfEven q ≤ ⌊q⌋ + 1 := by
  unfold roundHalfEven
  split_ifs <;> omega

/-- Ties-to-even rounding is monotone. -/
lemma roundHalfEven_mono {p q : ℚ} (h : p ≤ q) : roundHalfEven p ≤ roundHalfEven q := by
  have hf : ⌊p⌋ ≤ ⌊q⌋ := Int.floor_le_floor h
  rcases lt_or_eq_of_le hf with hlt | heq
  · calc roundHalfEven p ≤ ⌊p⌋ + 1 := roundHalfEven_le p
      _ ≤ ⌊q⌋ := by omega
      _ ≤ roundHalfEven q := floor_le_roundHalfEven q
  · have hfr : p - (⌊p⌋ : ℚ) ≤ q - (⌊p⌋ : ℚ) := by linarith
    unfold roundHalfEven
    rw [← heq]
    split_ifs <;> first
      | omega
      | (exfalso; linarith)

/-- C7: `size_in_gb` equals the byte count divided by `2 ^ 30` and
rounded to three decimal places, and is monotone in the byte count. -/
theorem size_in_gb_spec :
    (∀ x : ℕ, size_in_gb x = (roundHalfEven ((x : ℚ) / 1073741824 * 1000) : ℚ) / 1000) ∧
    ∀ x y : ℕ, x ≤ y → size_in_gb x ≤ size_in_gb y := by
  constructor
  · intro x
    unfold size_in_gb pyRound
    norm_num
  · intro x y hxy
    unfold size_in_gb pyRound
    have hle : (x : ℚ) / 1024 ^ 3 * 10 ^ 3 ≤ (y : ℚ) / 1024 ^ 3 * 10 ^ 3 := by
      have hxy2 : (x : ℚ) ≤ (y : ℚ) := by exact_mod_cast hxy
      gcongr
    have hr : ((roundHalfEven ((x : ℚ) / 1024 ^ 3 * 10 ^ 3) : ℤ) : ℚ) ≤
        ((roundHalfEven ((y : ℚ) / 1024 ^ 3 * 10 ^ 3) : ℤ) : ℚ) := by
      exact_mod_cast roundHalfEven_mono hle
    exact (div_le_div_iff_of_pos_right (by norm_num)).mpr hr

/-- C7 witness: one gigabyte weighs no more than two, through
`size_in_gb_spec`. -/
theorem size_in_gb_spec_witness :
    size_in_gb 1073741824 ≤ size_in_gb 2147483648 :=
  size_in_gb_spec.2 1073741824 2147483648 (by norm_num)

/-! ## Claim C5: integer printing parses back -/

/-- Digit characters have the expected code and pass the digit test. -/
lemma digitChar_spec {n : ℕ} (h : n < 10) :
    isPyDigit (digitChar n) = true ∧ (digitChar n).toNat - 48 = n := by
  interval_cases n <;> exact ⟨by decide, by decide⟩

/-- A digit character is not any specific non-digit character. -/
lemma isPyDigit_ne {c : Char} (x : Char) (h : isPyDigit c = true) (hx : isPyDigit x = false) :
    c ≠ x := by
  intro hc
  subst hc
  rw [h] at hx
  exact Bool.noConfusion hx

/-- A digit character is not whitespace. -/
lemma isPySpace_of_digit {c : Char} (h : isPyDigit c = true) : isPySpace c = false := by
  cases hsp : isPySpace c
  · rfl
  · exfalso
    simp only [isPySpace, Bool.or_eq_true, decide_eq_true_eq] at hsp
    rcases hsp with ((((h1 | h1) | h1) | h1) | h1) | h1 <;>
      · subst h1
        exact absurd h (by decide)

/-- The digit rendering of `n` under enough fuel: every character is a
digit, the list is nonempty, and folding the digits back recovers `n`. -/
lemma natCharsAux_spec : ∀ fuel n : ℕ, n < fuel →
    (∀ c ∈ natCharsAux fuel n, isPyDigit c = true) ∧ natCharsAux fuel n ≠ [] ∧
    (natCharsAux fuel n).foldl (fun a c => a * 10 + (c.toNat - 48)) 0 = n := by
  intro fuel
  induction fuel with
  | zero => intro n hn; omega
  | succ f ih =>
    intro n hn
    by_cases h10 : n < 10
    · refine ⟨?_, ?_, ?_⟩
      · intro c hc
        simp only [natCharsAux, if_pos h10, List.mem_singleton] at hc
        subst hc
        exact (digitChar_spec h10).1
      · simp [natCharsAux, if_pos h10]
      · simp only [natCharsAux, if_pos h10, List.foldl_cons, List.foldl_nil]
        rw [(digitChar_spec h10).2]
        omega
    · have hdiv : n / 10 < f := by omega
      obtain ⟨hall, hne, hval⟩ := ih (n / 10) hdiv
      have hmod : n % 10 < 10 := by omega
      refine ⟨?_, ?_, ?_⟩
      · intro c hc
        simp only [natCharsAux, if_neg h10, List.mem_append, List.mem_singleton] at hc
        rcases hc with hc | hc
        · exact hall c hc
        · subst hc
          exact (digitChar_spec hmod).1
      · simp [natCharsAux, if_neg h10]
      · simp only [natCharsAux, if_neg h10]
        rw [List.foldl_append, hval, List.foldl_cons, List.foldl_nil, (digitChar_spec hmod).2]
        omega

/-- An all-digit nonempty list passes the Python digit grammar from any
state. -/
lemma pyDigitsGo_all : ∀ l : List Char, (∀ c ∈ l, isPyDigit c = true) → l ≠ [] →
    ∀ b, pyDigitsGo b l = true := by
  intro l
  induction l with
  | nil => intro _ hne; exact absurd rfl hne
  | cons c t ih =>
    intro hall _ b
    have hc := hall c (List.mem_cons_self c t)
    show pyDigitsGo b (c :: t) = true
    simp only [pyDigitsGo]
    rw [if_pos hc]
    cases t with
    | nil => rfl
    | cons x xs => exact ih (fun d hd => hall d (List.mem_cons_of_mem c hd)) (by simp) true

/-- On an all-digit list the underscore filter of `digitsValN` is the
identity. -/
lemma digitsValN_all_digits {l : List Char} (hall : ∀ c ∈ l, isPyDigit c = true) :
    digitsValN l = l.foldl (fun a c => a * 10 + (c.toNat - 48)) 0 := by
  unfold digitsValN
  congr 1
  apply List.filter_eq_self.mpr
  intro c hc
  simp only [Bool.not_eq_eq_eq_not, Bool.not_true, beq_eq_false_iff_ne, ne_eq]
  exact isPyDigit_ne '_' (hall c hc) (by decide)

/-- `dropWhile` is the identity when no element satisfies the test. -/
lemma dropWhile_eq_self_of {α : Type} (p : α → Bool) (l : List α)
    (h : ∀ c ∈ l, p c = false) : l.dropWhile p = l := by
  cases l with
  | nil => rfl
  | cons c t =>
    rw [List.dropWhile_cons, h c (List.mem_cons_self c t)]
    rfl

/-- Stripping is the identity on whitespace-free lists. -/
lemma pyStrip_eq_self {l : List Char} (h : ∀ c ∈ l, isPySpace c = false) :
    pyStrip l = l := by
  unfold pyStrip
  rw [dropWhile_eq_self_of _ _ h,
    dropWhile_eq_self_of _ _ (fun c hc => h c (List.mem_reverse.mp hc)),
    List.reverse_reverse]

/-- `pyIntOfChars` on an already-stripped list, unfolded. -/
lemma pyIntOfChars_stripped (c : Char) (rest : List Char)
    (hstrip : pyStrip (c :: rest) = c :: rest) :
    pyIntOfChars (c :: rest) =
      if c = '+' then (if pyDigitsOk rest then some ((digitsValN rest : ℕ) : ℤ) else none)
      else if c = '-' then (if pyDigitsOk rest then some (-((digitsValN rest : ℕ) : ℤ)) else none)
      else if pyDigitsOk (c :: rest) then some ((digitsValN (c :: rest) : ℕ) : ℤ) else none := by
  unfold pyIntOfChars
  rw [hstrip]

/-- Integer rendering parses back to the same integer: the round trip of
Python `int(str(i))`. -/
lemma pyIntOfChars_intChars (i : ℤ) : pyIntOfChars (intChars i) = some i := by
  obtain ⟨hall0, hne0, hval0⟩ := natCharsAux_spec (i.natAbs + 1) i.natAbs (by omega)
  have hall : ∀ c ∈ natChars i.natAbs, isPyDigit c = true := hall0
  have hne : natChars i.natAbs ≠ [] := hne0
  have hval : (natChars i.natAbs).foldl (fun a c => a * 10 + (c.toNat - 48)) 0 = i.natAbs := hval0
  have hvalN : digitsValN (natChars i.natAbs) = i.natAbs := by
    rw [digitsValN_all_digits hall]
    exact hval
  have hok : pyDigitsOk (natChars i.natAbs) = true := pyDigitsGo_all _ hall hne false
  by_cases hi : i < 0
  · have hic : intChars i = '-' :: natChars i.natAbs := by
      unfold intChars
      rw [if_pos hi]
    rw [hic]
    have hstrip : pyStrip ('-' :: natChars i.natAbs) = '-' :: natChars i.natAbs := by
      apply pyStrip_eq_self
      intro c hc
      rcases List.mem_cons.mp hc with rfl | hc2
      · decide
      · exact isPySpace_of_digit (hall c hc2)
    rw [pyIntOfChars_stripped '-' _ hstrip, if_neg (by decide), if_pos rfl, if_pos hok, hvalN]
    have : -((i.natAbs : ℤ)) = i := by omega
    rw [this]
  · have hic : intChars i = natChars i.natAbs := by
      unfold intChars
      rw [if_neg hi]
    rcases hnc : natChars i.natAbs with _ | ⟨c, rest⟩
    · exact absurd hnc hne
    · rw [hic, hnc]
      rw [hnc] at hall hok hvalN
      have hcd : isPyDigit c = true := hall c (List.mem_cons_self c rest)
      have hstrip : pyStrip (c :: rest) = c :: rest := by
        apply pyStrip_eq_self
        intro d hd
        exact isPySpace_of_digit (hall d hd)
      rw [pyIntOfChars_stripped c rest hstrip,
        if_neg (isPyDigit_ne '+' hcd (by decide)),
        if_neg (isPyDigit_ne '-' hcd (by decide)), if_pos hok, hvalN]
      have : ((i.natAbs : ℤ)) = i := by omega
      rw [this]

/-- Concatenation of strings concatenates their character lists. -/
lemma toList_append (s t : String) : (s ++ t).toList = s.toList ++ t.toList := by
  cases s
  cases t
  rfl

/-- Splitting a separator-free list yields one field. -/
lemma pySplitGo_no_sep (sep : Char) (b : List Char) (hb : ∀ c ∈ b, c ≠ sep) :
    ∀ acc, pySplitGo sep acc b = [acc.reverse ++ b] := by
  induction b with
  | nil => intro acc; simp [pySplitGo]
  | cons c t ih =>
    intro acc
    have hc : c ≠ sep := hb c (List.mem_cons_self c t)
    simp only [pySplitGo]
    rw [if_neg hc, ih (fun d hd => hb d (List.mem_cons_of_mem c hd)) (c :: acc)]
    simp

/-- Splitting at the first separator occurrence. -/
lemma pySplitGo_sep (sep : Char) (a : List Char) (ha : ∀ c ∈ a, c ≠ sep) (b : List Char) :
    ∀ acc, pySplitGo sep acc (a ++ sep :: b) = (acc.reverse ++ a) :: pySplit sep b := by
  induction a with
  | nil =>
    intro acc
    simp [pySplit, pySplitGo]
  | cons c t ih =>
    intro acc
    have hc : c ≠ sep := ha c (List.mem_cons_self c t)
    simp only [List.cons_append, pySplitGo]
    rw [if_neg hc]
    show pySplitGo sep (c :: acc) (t ++ sep :: b) = _
    rw [ih (fun d hd => ha d (List.mem_cons_of_mem c hd)) (c :: acc)]
    simp

/-- Rendered integers contain no slash. -/
lemma intChars_ne_slash (i : ℤ) : ∀ c ∈ intChars i, c ≠ '/' := by
  intro c hc
  obtain ⟨hall0, _, _⟩ := natCharsAux_spec (i.natAbs + 1) i.natAbs (by omega)
  have hall : ∀ c ∈ natChars i.natAbs, isPyDigit c = true := hall0
  unfold intChars at hc
  by_cases hi : i < 0
  · rw [if_pos hi] at hc
    rcases List.mem_cons.mp hc with rfl | hc2
    · decide
    · exact isPyDigit_ne '/' (hall c hc2) (by decide)
  · rw [if_neg hi] at hc
    exact isPyDigit_ne '/' (hall c hc) (by decide)

/-- The embedded `parse_framerate` on a well-formed `N/D` string with a
nonzero denominator produces the formatted rate. -/
lemma parse_framerate_formats (n d : ℤ) (hd : d ≠ 0) :
    parse_framerate (some (intToStr n ++ ("/" : String) ++ intToStr d)) =
      some (formatFixedFrac n d ++ (" fps" : String)) := by
  have htl : (intToStr n ++ ("/" : String) ++ intToStr d).toList =
      intChars n ++ '/' :: intChars d := by
    rw [toList_append, toList_append]
    simp [intToStr]
  have hsplit : pySplit '/' ((intToStr n ++ ("/" : String) ++ intToStr d).toList) =
      [intChars n, intChars d] := by
    rw [htl]
    unfold pySplit
    rw [pySplitGo_sep '/' (intChars n) (intChars_ne_slash n) (intChars d) []]
    show _ :: pySplitGo '/' [] (intChars d) = _
    rw [pySplitGo_no_sep '/' (intChars d) (intChars_ne_slash d) []]
    simp
  rw [show parse_framerate (some (intToStr n ++ ("/" : String) ++ intToStr d)) =
    framerateOfParts ((pySplit '/'
      ((intToStr n ++ ("/" : String) ++ intToStr d).toList)).map pyIntOfChars) from rfl]
  rw [hsplit, List.map_cons, List.map_cons, List.map_nil,
    pyIntOfChars_intChars n, pyIntOfChars_intChars d]
  simp only [framerateOfParts]
  rw [if_neg hd]

/-- When the parts dispatch yields nothing: not exactly two parsed
integers with nonzero denominator. -/
lemma framerateOfParts_none_iff (ps : List (Option ℤ)) :
    framerateOfParts ps = none ↔ ¬ ∃ n d, ps = [some n, some d] ∧ d ≠ 0 := by
  constructor
  · rintro h ⟨n, d, rfl, hd⟩
    simp only [framerateOfParts] at h
    rw [if_neg hd] at h
    exact Option.noConfusion h
  · intro h
    rcases ps with _ | ⟨a, _ | ⟨b, _ | ⟨c, t⟩⟩⟩
    · rfl
    · rcases a with _ | x <;> rfl
    · rcases a with _ | x
      · rfl
      · rcases b with _ | y
        · rfl
        · simp only [framerateOfParts]
          by_cases hy : y = 0
          · rw [if_pos hy]
          · exact absurd ⟨x, y, rfl, hy⟩ h
    · rcases a with _ | x
      · rfl
      · rcases b with _ | y <;> rfl

/-- The integer rounding computes the rational rounding of `a / b`. -/
lemma roundHalfEvenFrac_eq (a : ℤ) (b : ℕ) (hb : 0 < b) :
    roundHalfEvenFrac a b = roundHalfEven ((a : ℚ) / (b : ℚ)) := by
  have hb0 : (0 : ℚ) < (b : ℚ) := by exact_mod_cast hb
  have hfl : ⌊(a : ℚ) / (b : ℚ)⌋ = a / (b : ℤ) := Rat.floor_intCast_div_natCast a b
  have hdmq : ((b : ℤ) : ℚ) * ((a / (b : ℤ) : ℤ) : ℚ) + ((a % (b : ℤ) : ℤ) : ℚ) = (a : ℚ) := by
    exact_mod_cast congrArg (fun z : ℤ => (z : ℚ)) (Int.ediv_add_emod a (b : ℤ))
  have hfr : (a : ℚ) / (b : ℚ) - ((a / (b : ℤ) : ℤ) : ℚ) = ((a % (b : ℤ) : ℤ) : ℚ) / (b : ℚ) := by
    field_simp
    push_cast at hdmq ⊢
    linarith
  have h1 : ((a : ℚ) / (b : ℚ) - ((a / (b : ℤ) : ℤ) : ℚ) < 1 / 2) ↔
      (2 * (a % (b : ℤ)) < (b : ℤ)) := by
    rw [hfr, div_lt_iff₀ hb0]
    constructor
    · intro h2
      have h3 : ((2 * (a % (b : ℤ)) : ℤ) : ℚ) < ((b : ℤ) : ℚ) := by push_cast; linarith
      exact_mod_cast h3
    · intro h2
      have h3 : ((2 * (a % (b : ℤ)) : ℤ) : ℚ) < ((b : ℤ) : ℚ) := by exact_mod_cast h2
      push_cast at h3
      linarith
  have h2 : (1 / 2 < (a : ℚ) / (b : ℚ) - ((a / (b : ℤ) : ℤ) : ℚ)) ↔
      ((b : ℤ) < 2 * (a % (b : ℤ))) := by
    rw [hfr, lt_div_iff₀ hb0]
    constructor
    · intro h3
      have h4 : ((b : ℤ) : ℚ) < ((2 * (a % (b : ℤ)) : ℤ) : ℚ) := by push_cast; linarith
      exact_mod_cast h4
    · intro h3
      have h4 : ((b : ℤ) : ℚ) < ((2 * (a % (b : ℤ)) : ℤ) : ℚ) := by exact_mod_cast h3
      push_cast at h4
      linarith
  unfold roundHalfEven roundHalfEvenFrac
  rw [hfl]
  simp only [h1, h2]

/-- Fixed-point formatting over a positive (natural) denominator agrees
with the specification-level rational formatting. -/
lemma formatFixedFrac_natCast (a : ℤ) (b : ℕ) (hb : 0 < b) :
    formatFixedFrac a ((b : ℕ) : ℤ) = formatFixed3 ((a : ℚ) / (b : ℚ)) := by
  have hb0 : (0 : ℚ) < (b : ℚ) := by exact_mod_cast hb
  have hnn : ¬(((b : ℕ) : ℤ) < 0) := by omega
  have hsgn : (a < 0) ↔ ((a : ℚ) / (b : ℚ) < 0) := by
    constructor
    · intro h
      exact div_neg_of_neg_of_pos (by exact_mod_cast h) hb0
    · intro h
      by_contra hna
      push_neg at hna
      have h0 : (0 : ℚ) ≤ (a : ℚ) / (b : ℚ) := div_nonneg (by exact_mod_cast hna) hb0.le
      linarith
  have habs : |(a : ℚ) / (b : ℚ)| * 1000 = ((|a| * 1000 : ℤ) : ℚ) / ((b : ℕ) : ℚ) := by
    rw [abs_div, abs_of_pos hb0]
    push_cast
    ring
  have hna : (((b : ℕ) : ℤ)).natAbs = b := by omega
  have hround : roundHalfEvenFrac (|a| * 1000) (((b : ℕ) : ℤ)).natAbs =
      roundHalfEven (|(a : ℚ) / (b : ℚ)| * 1000) := by
    rw [hna, roundHalfEvenFrac_eq (|a| * 1000) b hb, habs]
  unfold formatFixedFrac formatFixed3
  rw [if_neg hnn]
  simp only [hsgn, hround]

/-- With a negative denominator the integer formatter flips both signs. -/
lemma formatFixedFrac_neg_den (a b : ℤ) (hb : b < 0) :
    formatFixedFrac a b = formatFixedFrac (-a) (-b) := by
  unfold formatFixedFrac
  rw [if_pos hb, if_neg (by omega : ¬(-b < 0))]
  rw [show (-b).natAbs = b.natAbs by omega]

/-- Fixed-point formatting of `a / b` for any nonzero integer
denominator agrees with the specification-level rational formatting. -/
lemma formatFixedFrac_eq (a b : ℤ) (hb : b ≠ 0) :
    formatFixedFrac a b = formatFixed3 ((a : ℚ) / (b : ℚ)) := by
  rcases lt_trichotomy b 0 with hneg | rfl | hpos
  · rw [formatFixedFrac_neg_den a b hneg]
    have hb2 : -b = ((b.natAbs : ℕ) : ℤ) := by omega
    rw [hb2, formatFixedFrac_natCast (-a) b.natAbs (by omega)]
    congr 1
    have hcast : ((b.natAbs : ℕ) : ℚ) = -(b : ℚ) := by
      rw [Int.cast_natAbs, abs_of_neg hneg]
      push_cast
      ring
    rw [hcast]
    push_cast
    try rw [neg_div_neg_eq]
  · exact absurd rfl hb
  · have hb2 : b = ((b.toNat : ℕ) : ℤ) := by omega
    rw [hb2, formatFixedFrac_natCast a b.toNat (by omega)]
    congr 1

/-- C5: on a string of the form `N/D` (integers printed by Python `str`)
with `D ≠ 0` the parser returns the `.3f` formatting of `N / D` followed
by ` fps`; on every other input (including `D = 0`, non-numeric parts,
missing or extra separators and a null input) it returns null — the
function is total, so the caught exceptions never escape. -/
theorem parse_framerate_spec :
    (∀ (n d : ℤ), d ≠ 0 →
      parse_framerate (some (intToStr n ++ ("/" : String) ++ intToStr d)) =
        some (formatFixed3 ((n : ℚ) / (d : ℚ)) ++ (" fps" : String))) ∧
    ∀ r : Option String, parse_framerate r = none ↔
      ¬ ∃ s n d, r = some s ∧
        (pySplit '/' s.toList).map pyIntOfChars = [some n, some d] ∧ d ≠ 0 := by
  constructor
  · intro n d hd
    rw [parse_framerate_formats n d hd, formatFixedFrac_eq n d hd]
  · intro r
    cases r with
    | none =>
      constructor
      · rintro _ ⟨s, n, d, hs, _⟩
        exact Option.noConfusion hs
      · intro _
        rfl
    | some s =>
      rw [show parse_framerate (some s) =
        framerateOfParts ((pySplit '/' s.toList).map pyIntOfChars) from rfl,
        framerateOfParts_none_iff]
      constructor
      · rintro h ⟨s2, n, d, hs2, hmap, hd⟩
        obtain rfl : s2 = s := (Option.some.inj hs2).symm
        exact h ⟨n, d, hmap, hd⟩
      · rintro h ⟨n, d, hmap, hd⟩
        exact h ⟨s, n, d, rfl, hmap, hd⟩

/-- C5 witness: the NTSC rate formats to `23.976 fps`, a zero denominator
gives null, both through `parse_framerate_spec`. -/
theorem parse_framerate_spec_witness :
    parse_framerate (some ("24000/1001")) = some ("23.976 fps") ∧
    parse_framerate (some ("24/0")) = none := by
  constructor
  · have h := parse_framerate_spec.1 24000 1001 (by decide)
    have hstr : intToStr 24000 ++ ("/" : String) ++ intToStr 1001 = ("24000/1001" : String) := by
      decide
    rw [hstr] at h
    rw [h, ← formatFixedFrac_eq 24000 1001 (by decide)]
    decide
  · apply (parse_framerate_spec.2 (some ("24/0"))).mpr
    rintro ⟨s, n, d, hs, hmap, hd⟩
    obtain rfl : s = ("24/0" : String) := (Option.some.inj hs).symm
    have hcomp : (pySplit '/' (String.toList ("24/0"))).map pyIntOfChars =
        [some (24 : ℤ), some (0 : ℤ)] := by decide
    rw [hcomp] at hmap
    have hd0 : d = 0 := by
      injection hmap with h1 h2
      injection h2 with h3 h4
      exact (Option.some.inj h3).symm
    exact hd hd0
